import Mathlib

/- Verification of the internal key format module (db/dbformat.h).

   Bytes are modelled as natural numbers below 256 and byte strings as
   lists of naturals.  Machine 64-bit values are naturals together with
   explicit bounds below 2 ^ 64 where overflow matters.  The user
   comparator is an external collaborator and is modelled as a parameter
   returning an integer sign. -/

namespace RocksDB

/-- Sequence numbers leave eight bits empty at the bottom so a type and a
sequence number can be packed together into 64 bits (dbformat.h). -/
def kMaxSequenceNumber : Nat := (1 <<< 56) - 1

/-- Sentinel disabling the per-side override in the global-sequence-number
comparison overload; equals the largest unsigned 64-bit value. -/
def kDisableGlobalSequenceNumber : Nat := 2 ^ 64 - 1

/-- Width of the footer that carries the packed sequence number and type. -/
def kNumInternalBytes : Nat := 8

/-- Value type tags, encoded as the last component of internal keys.
The numeric values are a stable on-disk contract. -/
def kTypeDeletion : Nat := 0x0

def kTypeValue : Nat := 0x1

def kTypeMerge : Nat := 0x2

def kTypeSingleDeletion : Nat := 0x7

def kTypeRangeDeletion : Nat := 0xF

def kTypeDeletionWithTimestamp : Nat := 0x14

def kTypeWideColumnEntity : Nat := 0x16

def kTypeBlobIndex : Nat := 0x18

/-- Successor of the last valid type in the enumeration, used only for
validation and as an exclusive upper bound; never persisted. -/
def kTypeMaxValid : Nat := 0x19

def kMaxValue : Nat := 0x7F

/-- Checks whether a type is an inline value type, i.e. a type used in the
memtable skiplist and the sst file datablock. -/
def IsValueType (t : Nat) : Bool :=
  decide (t ≤ kTypeMerge) || decide (kTypeSingleDeletion = t) ||
    decide (kTypeBlobIndex = t) || decide (kTypeDeletionWithTimestamp = t) ||
    decide (kTypeWideColumnEntity = t)

/-- Checks whether a type is from a user operation; adds the range-deletion
tag (stored in meta blocks) and the max-valid sentinel to the inline set. -/
def IsExtendedValueType (t : Nat) : Bool :=
  IsValueType t || decide (t = kTypeRangeDeletion) || decide (t = kTypeMaxValid)

/-- Modelled from the spec: the fixed-endian 64-bit encoder of
util/coding.h, which is not under src/.  The on-disk footer layout is the
little/fixed-endian 64-bit integer packing sequence number and tag. -/
def encodeFixed64 (value : Nat) : List Nat :=
  [value % 256, value / 2 ^ 8 % 256, value / 2 ^ 16 % 256, value / 2 ^ 24 % 256,
   value / 2 ^ 32 % 256, value / 2 ^ 40 % 256, value / 2 ^ 48 % 256,
   value / 2 ^ 56 % 256]

/-- Modelled from the spec: the fixed-endian 64-bit decoder of
util/coding.h, which is not under src/.  Reads exactly the first eight
bytes of the span it is given. -/
def decodeFixed64 (bs : List Nat) : Nat :=
  bs.getD 0 0 + 2 ^ 8 * bs.getD 1 0 + 2 ^ 16 * bs.getD 2 0 +
    2 ^ 24 * bs.getD 3 0 + 2 ^ 32 * bs.getD 4 0 + 2 ^ 40 * bs.getD 5 0 +
    2 ^ 48 * bs.getD 6 0 + 2 ^ 56 * bs.getD 7 0

/-- Pack a sequence number and a value type into one 64-bit value. -/
def PackSequenceAndType (seq : Nat) (t : Nat) : Nat :=
  (seq <<< 8) ||| t

/-- Given the result of PackSequenceAndType, recover the sequence number
and the value type.  No validity assertion is performed on either part. -/
def UnPackSequenceAndType (packed : Nat) : Nat × Nat :=
  (packed >>> 8, packed &&& 0xff)

/-- An internal key in decomposed form: user key bytes, sequence number
and type stored separately. -/
structure ParsedInternalKey where
  user_key : List Nat
  sequence : Nat
  type : Nat
deriving Repr, DecidableEq

/-- Returns the user key portion of an internal key. -/
def ExtractUserKey (internal_key : List Nat) : List Nat :=
  internal_key.take (internal_key.length - kNumInternalBytes)

/-- Decodes the 64-bit footer stored in the last eight bytes. -/
def ExtractInternalKeyFooter (internal_key : List Nat) : Nat :=
  decodeFixed64 (internal_key.drop (internal_key.length - kNumInternalBytes))

/-- Returns the value type byte of an internal key. -/
def ExtractValueType (internal_key : List Nat) : Nat :=
  ExtractInternalKeyFooter internal_key &&& 0xff

/-- Attempts to parse an internal key; reports corruption for a span
shorter than the footer or for a tag outside the extended set. -/
def ParseInternalKey (internal_key : List Nat) :
    Except String ParsedInternalKey :=
  let n := internal_key.length
  if n < kNumInternalBytes then
    Except.error "Corrupted Key: Internal Key too small"
  else
    let num := decodeFixed64 (internal_key.drop (n - kNumInternalBytes))
    let c := num &&& 0xff
    let result : ParsedInternalKey :=
      ⟨internal_key.take (n - kNumInternalBytes), num >>> 8, c⟩
    if IsExtendedValueType result.type then Except.ok result
    else Except.error "Corrupted Key"

/-- Three-way comparison over internal keys: user-comparator order on the
user key portions, then decreasing footer (sequence number, then type). -/
def InternalKeyComparator.Compare (ucmp : List Nat → List Nat → Int)
    (akey bkey : List Nat) : Int :=
  let r := ucmp (ExtractUserKey akey) (ExtractUserKey bkey)
  if r = 0 then
    let anum := decodeFixed64 (akey.drop (akey.length - kNumInternalBytes))
    let bnum := decodeFixed64 (bkey.drop (bkey.length - kNumInternalBytes))
    if anum > bnum then -1
    else if anum < bnum then 1
    else r
  else r

/-- The comparison overload taking per-side global sequence numbers; a
side whose override equals the disable sentinel uses the footer embedded
in its bytes, any other override replaces the embedded sequence number. -/
def InternalKeyComparator.CompareWithGlobalSeqno
    (ucmp : List Nat → List Nat → Int) (a : List Nat) (a_global_seqno : Nat)
    (b : List Nat) (b_global_seqno : Nat) : Int :=
  let r := ucmp (ExtractUserKey a) (ExtractUserKey b)
  if r = 0 then
    let a_footer :=
      if a_global_seqno = kDisableGlobalSequenceNumber then
        ExtractInternalKeyFooter a
      else PackSequenceAndType a_global_seqno (ExtractValueType a)
    let b_footer :=
      if b_global_seqno = kDisableGlobalSequenceNumber then
        ExtractInternalKeyFooter b
      else PackSequenceAndType b_global_seqno (ExtractValueType b)
    if a_footer > b_footer then -1
    else if a_footer < b_footer then 1
    else r
  else r

/-- Modelled from the spec: the default bytewise user comparator is an
external collaborator supplied through rocksdb/comparator.h; ascending
lexicographic order over raw bytes. -/
def bytewiseCompare : List Nat → List Nat → Int
  | [], [] => 0
  | [], _ :: _ => -1
  | _ :: _, [] => 1
  | a :: as, b :: bs =>
    if a < b then -1 else if b < a then 1 else bytewiseCompare as bs

/- Basic facts about the coding layer. -/

theorem encodeFixed64_length (v : Nat) : (encodeFixed64 v).length = 8 := rfl

theorem encodeFixed64_isBytes (v : Nat) :
    ∀ b ∈ encodeFixed64 v, b < 256 := by
  intro b hb
  simp only [encodeFixed64, List.mem_cons, List.not_mem_nil, or_false] at hb
  rcases hb with h | h | h | h | h | h | h | h <;> subst h <;> omega

theorem decode_encodeFixed64 (v : Nat) (h : v < 2 ^ 64) :
    decodeFixed64 (encodeFixed64 v) = v := by
  simp only [decodeFixed64, encodeFixed64, List.getD, List.get?]
  simp only [List.getElem?_cons_zero, List.getElem?_cons_succ, Option.getD_some]
  omega

theorem packSequenceAndType_eq (seq t : Nat) (ht : t < 256) :
    PackSequenceAndType seq t = 256 * seq + t := by
  unfold PackSequenceAndType
  rw [Nat.shiftLeft_eq]
  have h := Nat.mul_add_lt_is_or (by omega : t < 2 ^ 8) seq
  have e1 : seq * 2 ^ 8 = 2 ^ 8 * seq := by ring
  rw [e1, ← h]

theorem packSequenceAndType_lt (seq t : Nat) (hseq : seq ≤ kMaxSequenceNumber)
    (ht : t < 256) : PackSequenceAndType seq t < 2 ^ 64 := by
  rw [packSequenceAndType_eq seq t ht]
  have : kMaxSequenceNumber = 2 ^ 56 - 1 := by decide
  omega

theorem isExtendedValueType_lt (t : Nat) (h : IsExtendedValueType t = true) :
    t < 256 := by
  simp only [IsExtendedValueType, IsValueType, Bool.or_eq_true,
    decide_eq_true_eq] at h
  unfold kTypeMerge kTypeSingleDeletion kTypeBlobIndex
    kTypeDeletionWithTimestamp kTypeWideColumnEntity kTypeRangeDeletion
    kTypeMaxValid at h
  omega

theorem extractUserKey_append (u f : List Nat) (hf : f.length = 8) :
    ExtractUserKey (u ++ f) = u := by
  unfold ExtractUserKey kNumInternalBytes
  have h1 : (u ++ f).length - 8 = u.length := by
    simp [List.length_append, hf]
  rw [h1]
  exact List.take_left u f

theorem footer_drop_append (u f : List Nat) (hf : f.length = 8) :
    (u ++ f).drop ((u ++ f).length - kNumInternalBytes) = f := by
  unfold kNumInternalBytes
  have h1 : (u ++ f).length - 8 = u.length := by
    simp [List.length_append, hf]
  rw [h1]
  exact List.drop_left u f

/-- Modelled from the spec: AppendInternalKey is implemented in
dbformat.cc, which is not under src/.  It appends the serialization of
the decomposed key, user key bytes followed by the packed footer. -/
def AppendInternalKey (result : List Nat) (key : ParsedInternalKey) :
    List Nat :=
  result ++ key.user_key ++
    encodeFixed64 (PackSequenceAndType key.sequence key.type)

/-- Modelled from the spec: AppendInternalKeyWithDifferentTimestamp is
implemented in dbformat.cc, which is not under src/.  It appends the
serialization of the decomposed key after replacing the trailing
timestamp bytes of the user key with the supplied timestamp. -/
def AppendInternalKeyWithDifferentTimestamp (result : List Nat)
    (key : ParsedInternalKey) (ts : List Nat) : List Nat :=
  result ++ key.user_key.take (key.user_key.length - ts.length) ++ ts ++
    encodeFixed64 (PackSequenceAndType key.sequence key.type)

/-- C9: UnPackSequenceAndType is total and never fails: on every 64-bit
packed value, including values whose low byte is not a valid tag or whose
high 56 bits would exceed the valid sequence range, it returns the high
56 bits as the sequence and the low byte as the type, with no validity
check; it inverts the bit layout exactly. -/
theorem unPackSequenceAndType_total (packed : Nat) (h : packed < 2 ^ 64) :
    UnPackSequenceAndType packed = (packed / 2 ^ 8, packed % 2 ^ 8) ∧
    (UnPackSequenceAndType packed).1 ≤ kMaxSequenceNumber ∧
    (UnPackSequenceAndType packed).2 < 256 ∧
    PackSequenceAndType (UnPackSequenceAndType packed).1
      (UnPackSequenceAndType packed).2 = packed := by
  have hshift : packed >>> 8 = packed / 2 ^ 8 := Nat.shiftRight_eq_div_pow _ _
  have hand : packed &&& 0xff = packed % 2 ^ 8 := by
    have := Nat.and_pow_two_sub_one_eq_mod packed 8
    norm_num at this ⊢
    exact this
  refine ⟨?_, ?_, ?_, ?_⟩
  · unfold UnPackSequenceAndType
    rw [hshift, hand]
  · unfold UnPackSequenceAndType
    simp only [hshift]
    have : kMaxSequenceNumber = 2 ^ 56 - 1 := by decide
    omega
  · unfold UnPackSequenceAndType
    simp only [hand]
    omega
  · unfold UnPackSequenceAndType
    simp only [hshift, hand]
    rw [packSequenceAndType_eq _ _ (by omega)]
    omega

/-- Witness for C9 at a packed value whose tag byte 0xf0 is not a valid
tag: unpacking still succeeds and inverts the layout. -/
theorem unPackSequenceAndType_total_witness :
    UnPackSequenceAndType 0xfffffffffffffff0 =
      (0xfffffffffffffff0 / 2 ^ 8, 0xfffffffffffffff0 % 2 ^ 8) ∧
    (UnPackSequenceAndType 0xfffffffffffffff0).1 ≤ kMaxSequenceNumber ∧
    (UnPackSequenceAndType 0xfffffffffffffff0).2 < 256 ∧
    PackSequenceAndType (UnPackSequenceAndType 0xfffffffffffffff0).1
      (UnPackSequenceAndType 0xfffffffffffffff0).2 = 0xfffffffffffffff0 :=
  unPackSequenceAndType_total 0xfffffffffffffff0 (by norm_num)

/-- C2: parsing the result of appending an internal key built from any
user key, any sequence number at most kMaxSequenceNumber, and any
extended tag returns exactly the original triple. -/
theorem parseInternalKey_appendInternalKey (uk : List Nat) (seq t : Nat)
    (hseq : seq ≤ kMaxSequenceNumber) (ht : IsExtendedValueType t = true) :
    ParseInternalKey (AppendInternalKey [] ⟨uk, seq, t⟩) =
      Except.ok ⟨uk, seq, t⟩ := by
  have ht256 := isExtendedValueType_lt t ht
  have hlt := packSequenceAndType_lt seq t hseq ht256
  have hpack := packSequenceAndType_eq seq t ht256
  unfold AppendInternalKey ParseInternalKey
  simp only [List.nil_append]
  have hf : (encodeFixed64 (PackSequenceAndType seq t)).length = 8 :=
    encodeFixed64_length _
  have hn : (uk ++ encodeFixed64 (PackSequenceAndType seq t)).length =
      uk.length + 8 := by simp [hf]
  rw [if_neg (by unfold kNumInternalBytes; omega)]
  rw [show (uk ++ encodeFixed64 (PackSequenceAndType seq t)).length -
        kNumInternalBytes = uk.length by unfold kNumInternalBytes; omega]
  rw [show uk.length =
        (uk : List Nat).length from rfl] at *
  rw [List.drop_left uk, List.take_left uk]
  rw [decode_encodeFixed64 _ hlt]
  have hc : PackSequenceAndType seq t &&& 0xff = t := by
    have := Nat.and_pow_two_sub_one_eq_mod (PackSequenceAndType seq t) 8
    norm_num at this
    rw [this, hpack]
    omega
  have hs : PackSequenceAndType seq t >>> 8 = seq := by
    rw [Nat.shiftRight_eq_div_pow, hpack]
    omega
  rw [hc, hs]
  rw [if_pos ht]

/-- Witness for C2 at user key [97], sequence 5, tag 1 (a put). -/
theorem parseInternalKey_appendInternalKey_witness :
    ParseInternalKey (AppendInternalKey [] ⟨[97], 5, 1⟩) =
      Except.ok ⟨[97], 5, 1⟩ :=
  parseInternalKey_appendInternalKey [97] 5 1 (by decide) (by decide)

/-- C3: ParseInternalKey reports corruption exactly when the span is
shorter than eight bytes or the decoded tag byte is not extended; on any
span of length at least eight with an extended tag it succeeds returning
the leading bytes as user key, the footer shifted right by eight as the
sequence, and the low footer byte as the type.  The embedding reads only
the given byte list, so no out-of-bounds access is possible. -/
theorem parseInternalKey_corruption_iff (k : List Nat) :
    ((∃ msg, ParseInternalKey k = Except.error msg) ↔
      (k.length < kNumInternalBytes ∨
        IsExtendedValueType
          (decodeFixed64 (k.drop (k.length - kNumInternalBytes)) &&& 0xff) =
          false)) ∧
    (kNumInternalBytes ≤ k.length →
      IsExtendedValueType
          (decodeFixed64 (k.drop (k.length - kNumInternalBytes)) &&& 0xff) =
          true →
      ParseInternalKey k =
        Except.ok ⟨k.take (k.length - kNumInternalBytes),
          decodeFixed64 (k.drop (k.length - kNumInternalBytes)) >>> 8,
          decodeFixed64 (k.drop (k.length - kNumInternalBytes)) &&& 0xff⟩) := by
  unfold ParseInternalKey
  by_cases h1 : k.length < kNumInternalBytes
  · rw [if_pos h1]
    constructor
    · constructor
      · intro _
        exact Or.inl h1
      · intro _
        exact ⟨_, rfl⟩
    · intro h2
      omega
  · rw [if_neg h1]
    by_cases h2 : IsExtendedValueType
        (decodeFixed64 (k.drop (k.length - kNumInternalBytes)) &&& 0xff) = true
    · rw [if_pos h2]
      constructor
      · constructor
        · intro ⟨msg, hmsg⟩
          exact absurd hmsg (by simp)
        · intro hor
          rcases hor with hlt | hfalse
          · omega
          · rw [h2] at hfalse
            exact absurd hfalse (by simp)
      · intro _ _
        rfl
    · rw [if_neg h2]
      constructor
      · constructor
        · intro _
          exact Or.inr (by simpa using h2)
        · intro _
          exact ⟨_, rfl⟩
      · intro _ htrue
        rw [htrue] at h2
        exact absurd rfl h2

/-- Witness for C3: a three-byte span parses to corruption, and a
nine-byte span carrying tag 1 and sequence 5 parses successfully with the
stated decomposition. -/
theorem parseInternalKey_corruption_iff_witness :
    (∃ msg, ParseInternalKey [1, 2, 3] = Except.error msg) ∧
    ParseInternalKey [97, 1, 5, 0, 0, 0, 0, 0, 0] =
      Except.ok ⟨[97, 1, 5, 0, 0, 0, 0, 0, 0].take
          ([97, 1, 5, 0, 0, 0, 0, 0, 0].length - kNumInternalBytes),
        decodeFixed64 ([97, 1, 5, 0, 0, 0, 0, 0, 0].drop
          ([97, 1, 5, 0, 0, 0, 0, 0, 0].length - kNumInternalBytes)) >>> 8,
        decodeFixed64 ([97, 1, 5, 0, 0, 0, 0, 0, 0].drop
          ([97, 1, 5, 0, 0, 0, 0, 0, 0].length - kNumInternalBytes)) &&&
          0xff⟩ :=
  ⟨(parseInternalKey_corruption_iff [1, 2, 3]).1.mpr (Or.inl (by decide)),
   (parseInternalKey_corruption_iff [97, 1, 5, 0, 0, 0, 0, 0, 0]).2
     (by decide) (by decide)⟩

/-- The comparison of two well-formed internal keys reduces to the user
comparison and, on ties, the reversed comparison of the decoded packed
footers. -/
theorem compare_append_eq (ucmp : List Nat → List Nat → Int)
    (ua ub : List Nat) (sa sb ta tb : Nat)
    (hsa : sa ≤ kMaxSequenceNumber) (hsb : sb ≤ kMaxSequenceNumber)
    (hta : ta < 256) (htb : tb < 256) :
    InternalKeyComparator.Compare ucmp
        (ua ++ encodeFixed64 (PackSequenceAndType sa ta))
        (ub ++ encodeFixed64 (PackSequenceAndType sb tb)) =
      (if ucmp ua ub = 0 then
        if 256 * sb + tb < 256 * sa + ta then -1
        else if 256 * sa + ta < 256 * sb + tb then 1
        else 0
      else ucmp ua ub) := by
  unfold InternalKeyComparator.Compare
  rw [extractUserKey_append ua _ (encodeFixed64_length _),
    extractUserKey_append ub _ (encodeFixed64_length _)]
  rw [show (ua ++ encodeFixed64 (PackSequenceAndType sa ta)).length -
      kNumInternalBytes = ua.length by
    simp [encodeFixed64_length, kNumInternalBytes]]
  rw [show (ub ++ encodeFixed64 (PackSequenceAndType sb tb)).length -
      kNumInternalBytes = ub.length by
    simp [encodeFixed64_length, kNumInternalBytes]]
  rw [List.drop_left ua, List.drop_left ub]
  rw [decode_encodeFixed64 _ (packSequenceAndType_lt sa ta hsa hta),
    decode_encodeFixed64 _ (packSequenceAndType_lt sb tb hsb htb)]
  rw [packSequenceAndType_eq sa ta hta, packSequenceAndType_eq sb tb htb]
  by_cases h : ucmp ua ub = 0
  · simp [h, gt_iff_lt]
  · simp [h]

/-- C1: over well-formed internal keys the comparator orders first by the
user comparator on the user key portions ascending; on equal user keys by
sequence number descending; on equal sequence numbers by tag descending. -/
theorem internalKeyComparator_compare_order
    (ucmp : List Nat → List Nat → Int) (ua ub : List Nat) (sa sb ta tb : Nat)
    (hsa : sa ≤ kMaxSequenceNumber) (hsb : sb ≤ kMaxSequenceNumber)
    (hta : ta < 256) (htb : tb < 256) :
    (ucmp ua ub ≠ 0 →
      InternalKeyComparator.Compare ucmp
        (ua ++ encodeFixed64 (PackSequenceAndType sa ta))
        (ub ++ encodeFixed64 (PackSequenceAndType sb tb)) = ucmp ua ub) ∧
    (ucmp ua ub = 0 →
      ((InternalKeyComparator.Compare ucmp
          (ua ++ encodeFixed64 (PackSequenceAndType sa ta))
          (ub ++ encodeFixed64 (PackSequenceAndType sb tb)) < 0 ↔
        (sb < sa ∨ (sa = sb ∧ tb < ta))) ∧
      (InternalKeyComparator.Compare ucmp
          (ua ++ encodeFixed64 (PackSequenceAndType sa ta))
          (ub ++ encodeFixed64 (PackSequenceAndType sb tb)) = 0 ↔
        (sa = sb ∧ ta = tb)) ∧
      (0 < InternalKeyComparator.Compare ucmp
          (ua ++ encodeFixed64 (PackSequenceAndType sa ta))
          (ub ++ encodeFixed64 (PackSequenceAndType sb tb)) ↔
        (sa < sb ∨ (sa = sb ∧ ta < tb))))) := by
  rw [compare_append_eq ucmp ua ub sa sb ta tb hsa hsb hta htb]
  constructor
  · intro hne
    rw [if_neg hne]
  · intro heq
    rw [if_pos heq]
    rcases Nat.lt_trichotomy (256 * sa + ta) (256 * sb + tb) with hlt | heq2 | hgt
    · rw [if_neg (by omega), if_pos hlt]
      refine ⟨?_, ?_, ?_⟩
      · constructor
        · intro hc
          norm_num at hc
        · intro hor
          omega
      · constructor
        · intro hc
          norm_num at hc
        · intro hand
          omega
      · constructor
        · intro _
          omega
        · intro _
          norm_num
    · rw [if_neg (by omega), if_neg (by omega)]
      refine ⟨?_, ?_, ?_⟩
      · constructor
        · intro hc
          norm_num at hc
        · intro hor
          omega
      · constructor
        · intro _
          omega
        · intro _
          rfl
      · constructor
        · intro hc
          norm_num at hc
        · intro hor
          omega
    · rw [if_pos hgt]
      refine ⟨?_, ?_, ?_⟩
      · constructor
        · intro _
          omega
        · intro _
          norm_num
      · constructor
        · intro hc
          norm_num at hc
        · intro hand
          omega
      · constructor
        · intro hc
          norm_num at hc
        · intro hor
          omega

/-- Witness for C1: with the bytewise user comparator and equal user
keys, the key with the larger sequence number compares below. -/
theorem internalKeyComparator_compare_order_witness :
    InternalKeyComparator.Compare bytewiseCompare
      ([97] ++ encodeFixed64 (PackSequenceAndType 5 1))
      ([97] ++ encodeFixed64 (PackSequenceAndType 3 1)) < 0 :=
  (((internalKeyComparator_compare_order bytewiseCompare [97] [97] 5 3 1 1
      (by decide) (by decide) (by decide) (by decide)).2
    (by decide)).1).mpr (by omega)

/-- C10: with both override sequence numbers equal to the disable
sentinel, the global-sequence-number comparison overload coincides with
the plain comparison. -/
theorem compareWithGlobalSeqno_disable (ucmp : List Nat → List Nat → Int)
    (a b : List Nat) (ha : 8 ≤ a.length) (hb : 8 ≤ b.length) :
    InternalKeyComparator.CompareWithGlobalSeqno ucmp
        a kDisableGlobalSequenceNumber b kDisableGlobalSequenceNumber =
      InternalKeyComparator.Compare ucmp a b := by
  unfold InternalKeyComparator.CompareWithGlobalSeqno
    InternalKeyComparator.Compare ExtractInternalKeyFooter
  simp

/-- Witness for C10 at two concrete nine-byte keys. -/
theorem compareWithGlobalSeqno_disable_witness :
    InternalKeyComparator.CompareWithGlobalSeqno bytewiseCompare
        [97, 1, 5, 0, 0, 0, 0, 0, 0] kDisableGlobalSequenceNumber
        [98, 1, 3, 0, 0, 0, 0, 0, 0] kDisableGlobalSequenceNumber =
      InternalKeyComparator.Compare bytewiseCompare
        [97, 1, 5, 0, 0, 0, 0, 0, 0] [98, 1, 3, 0, 0, 0, 0, 0, 0] :=
  compareWithGlobalSeqno_disable bytewiseCompare _ _ (by decide) (by decide)

/-- Modelled from the spec: kValueTypeForSeek is defined in dbformat.cc,
which is not under src/; per the spec it is the sentinel seek tag, the
max-valid marker that is never persisted. -/
def kValueTypeForSeek : Nat := kTypeMaxValid

/-- Construction of an owning internal key from user key, sequence
number and type. -/
def InternalKey.new (user_key : List Nat) (s t : Nat) : List Nat :=
  AppendInternalKey [] ⟨user_key, s, t⟩

/-- Construction of an owning internal key whose timestamp is replaced
by the supplied one. -/
def InternalKey.newWithTs (user_key : List Nat) (s t : Nat)
    (ts : List Nat) : List Nat :=
  AppendInternalKeyWithDifferentTimestamp [] ⟨user_key, s, t⟩ ts

/-- Sets the internal key to be bigger than or equal to all internal keys
with this user key: sequence 0 and type 0. -/
def InternalKey.SetMaxPossibleForUserKey (user_key : List Nat) : List Nat :=
  AppendInternalKey [] ⟨user_key, 0, 0⟩

/-- Sets the internal key to be smaller than or equal to all internal
keys with this user key: max sequence number and the seek type. -/
def InternalKey.SetMinPossibleForUserKey (user_key : List Nat) : List Nat :=
  AppendInternalKey [] ⟨user_key, kMaxSequenceNumber, kValueTypeForSeek⟩

/-- A range tombstone: deleted half-open user-key interval with a
sequence number and an optional timestamp (empty when disabled). -/
structure RangeTombstone where
  start_key : List Nat
  end_key : List Nat
  seq : Nat
  ts : List Nat

/-- Serialization of the start boundary. -/
def RangeTombstone.SerializeKey (rt : RangeTombstone) : List Nat :=
  InternalKey.new rt.start_key rt.seq kTypeRangeDeletion

/-- Serialization of the exclusive end boundary: max sequence number
with the range-deletion type, and, when a timestamp is present, the
all-high-bits timestamp of the same width. -/
def RangeTombstone.SerializeEndKey (rt : RangeTombstone) : List Nat :=
  if rt.ts ≠ [] then
    if rt.ts.length ≤ 9 then
      InternalKey.newWithTs rt.end_key kMaxSequenceNumber kTypeRangeDeletion
        ((List.replicate 9 0xff).take rt.ts.length)
    else
      InternalKey.newWithTs rt.end_key kMaxSequenceNumber kTypeRangeDeletion
        (List.replicate rt.ts.length 0xff)
  else InternalKey.new rt.end_key kMaxSequenceNumber kTypeRangeDeletion

/-- Byte form of the serialized end boundary when a timestamp is
configured: the timestamp suffix of the end user key is replaced by the
all-0xff maximum of the same width, then the max-sequence range-deletion
footer is appended. -/
theorem serializeEndKey_eq_of_ts (rt : RangeTombstone) (hts : rt.ts ≠ []) :
    rt.SerializeEndKey =
      rt.end_key.take (rt.end_key.length - rt.ts.length) ++
        List.replicate rt.ts.length 0xff ++
        encodeFixed64
          (PackSequenceAndType kMaxSequenceNumber kTypeRangeDeletion) := by
  unfold RangeTombstone.SerializeEndKey
  rw [if_pos hts]
  by_cases hlen : rt.ts.length ≤ 9
  · rw [if_pos hlen]
    unfold InternalKey.newWithTs AppendInternalKeyWithDifferentTimestamp
    rw [List.take_replicate]
    have hmin : min rt.ts.length 9 = rt.ts.length := by omega
    rw [hmin]
    simp [List.length_replicate]
  · rw [if_neg hlen]
    unfold InternalKey.newWithTs AppendInternalKeyWithDifferentTimestamp
    simp [List.length_replicate]

/-- C4: the serialized end boundary of a range tombstone is the augmented
key of the end user key with max sequence number and the range-deletion
tag (with the timestamp, when configured, replaced by the all-0xff
maximum of the same width).  In the timestamp-free configuration it
compares strictly below the literal end key paired with the put tag at
every real sequence number; in the timestamp configuration it compares
strictly below every put-tagged key at any real sequence number whose
user key sorts at-or-after the boundary user key — in particular the
literal end key carrying any real timestamp, since the maximum
timestamp sorts at-or-before every real one under the timestamp-aware
user comparator. -/
theorem rangeTombstone_serializeEndKey (rt : RangeTombstone)
    (ucmp : List Nat → List Nat → Int) (seq : Nat)
    (hrefl : ucmp rt.end_key rt.end_key = 0)
    (hseq : seq ≤ kMaxSequenceNumber) :
    (rt.ts = [] →
      rt.SerializeEndKey =
        rt.end_key ++ encodeFixed64
          (PackSequenceAndType kMaxSequenceNumber kTypeRangeDeletion)) ∧
    (rt.ts ≠ [] →
      rt.SerializeEndKey =
        rt.end_key.take (rt.end_key.length - rt.ts.length) ++
          List.replicate rt.ts.length 0xff ++
          encodeFixed64
            (PackSequenceAndType kMaxSequenceNumber kTypeRangeDeletion)) ∧
    (rt.ts = [] →
      InternalKeyComparator.Compare ucmp rt.SerializeEndKey
        (InternalKey.new rt.end_key seq kTypeValue) < 0) ∧
    (rt.ts ≠ [] →
      ∀ bkey : List Nat,
        ucmp (rt.end_key.take (rt.end_key.length - rt.ts.length) ++
          List.replicate rt.ts.length 0xff) bkey ≤ 0 →
        InternalKeyComparator.Compare ucmp rt.SerializeEndKey
          (InternalKey.new bkey seq kTypeValue) < 0) := by
  have hk : kMaxSequenceNumber = 2 ^ 56 - 1 := by decide
  have hr : kTypeRangeDeletion = 15 := rfl
  have hv : kTypeValue = 1 := rfl
  refine ⟨?_, ?_, ?_, ?_⟩
  · intro hts
    unfold RangeTombstone.SerializeEndKey
    rw [if_neg (by simp [hts])]
    rfl
  · intro hts
    exact serializeEndKey_eq_of_ts rt hts
  · intro hts
    unfold RangeTombstone.SerializeEndKey
    rw [if_neg (by simp [hts])]
    unfold InternalKey.new AppendInternalKey
    simp only [List.nil_append]
    rw [compare_append_eq ucmp rt.end_key rt.end_key kMaxSequenceNumber seq
      kTypeRangeDeletion kTypeValue (le_refl _) hseq (by decide) (by decide)]
    rw [if_pos hrefl]
    rw [if_pos (by rw [hk, hr, hv]; omega)]
    norm_num
  · intro hts bkey hle
    rw [serializeEndKey_eq_of_ts rt hts]
    unfold InternalKey.new AppendInternalKey
    simp only [List.nil_append]
    rw [compare_append_eq ucmp
      (rt.end_key.take (rt.end_key.length - rt.ts.length) ++
        List.replicate rt.ts.length 0xff) bkey kMaxSequenceNumber seq
      kTypeRangeDeletion kTypeValue (le_refl _) hseq (by decide) (by decide)]
    rcases lt_or_eq_of_le hle with hlt | heq0
    · rw [if_neg (ne_of_lt hlt)]
      exact hlt
    · rw [if_pos heq0]
      rw [if_pos (by rw [hk, hr, hv]; omega)]
      norm_num

/-- Witness for C4: a timestamp-free tombstone with end key [109]
compared against sequence 1, a two-byte-timestamp tombstone whose end
boundary bytes replace the timestamp with 0xff 0xff, and the
timestamp-configured comparison against the literal end key carrying
the boundary timestamp at sequence 1. -/
theorem rangeTombstone_serializeEndKey_witness :
    InternalKeyComparator.Compare bytewiseCompare
      (RangeTombstone.mk [97] [109] 5 []).SerializeEndKey
      (InternalKey.new [109] 1 kTypeValue) < 0 ∧
    (RangeTombstone.mk [97, 7, 7] [109, 1, 1] 5 [7, 7]).SerializeEndKey =
      ([109, 1, 1] : List Nat).take (([109, 1, 1] : List Nat).length - 2) ++
        List.replicate 2 0xff ++
        encodeFixed64
          (PackSequenceAndType kMaxSequenceNumber kTypeRangeDeletion) ∧
    InternalKeyComparator.Compare bytewiseCompare
      (RangeTombstone.mk [97, 7, 7] [109, 1, 1] 5 [7, 7]).SerializeEndKey
      (InternalKey.new [109, 255, 255] 1 kTypeValue) < 0 :=
  ⟨(rangeTombstone_serializeEndKey (RangeTombstone.mk [97] [109] 5 [])
      bytewiseCompare 1 (by decide) (by decide)).2.2.1 rfl,
   (rangeTombstone_serializeEndKey
      (RangeTombstone.mk [97, 7, 7] [109, 1, 1] 5 [7, 7])
      bytewiseCompare 1 (by decide) (by decide)).2.1 (by decide),
   (rangeTombstone_serializeEndKey
      (RangeTombstone.mk [97, 7, 7] [109, 1, 1] 5 [7, 7])
      bytewiseCompare 1 (by decide) (by decide)).2.2.2 (by decide)
     [109, 255, 255] (by decide)⟩

/-- C6 counterexample: the max-possible key for user key [97] does not
sort strictly after the real augmented key ([97], sequence 0, deletion
tag); the comparator returns 0 on that pair, refuting the claim that it
sorts after every real key with that user key. -/
theorem setMaxPossibleForUserKey_counterexample :
    InternalKeyComparator.Compare bytewiseCompare
      (InternalKey.SetMaxPossibleForUserKey [97])
      (InternalKey.new [97] 0 kTypeDeletion) = 0 := by decide

/-- C6 amended: the max-possible key (sequence 0, tag 0) sorts at or
after every real augmented key with the same user key, strictly after
exactly those whose packed footer is nonzero, i.e. (sequence, tag)
different from (0, 0); the min-possible key (max sequence, seek tag)
sorts strictly before every real augmented key with the same user key
whose tag is below the never-persisted max-valid sentinel. -/
theorem setMinMaxPossibleForUserKey_bounds
    (ucmp : List Nat → List Nat → Int) (uk : List Nat) (seq t : Nat)
    (hrefl : ucmp uk uk = 0) (hseq : seq ≤ kMaxSequenceNumber)
    (ht : t < 256) :
    (0 ≤ InternalKeyComparator.Compare ucmp
        (InternalKey.SetMaxPossibleForUserKey uk)
        (InternalKey.new uk seq t)) ∧
    (¬(seq = 0 ∧ t = 0) →
      0 < InternalKeyComparator.Compare ucmp
        (InternalKey.SetMaxPossibleForUserKey uk)
        (InternalKey.new uk seq t)) ∧
    (t < kTypeMaxValid →
      InternalKeyComparator.Compare ucmp
        (InternalKey.SetMinPossibleForUserKey uk)
        (InternalKey.new uk seq t) < 0) := by
  have hk : kMaxSequenceNumber = 2 ^ 56 - 1 := by decide
  refine ⟨?_, ?_, ?_⟩
  · unfold InternalKey.SetMaxPossibleForUserKey InternalKey.new
      AppendInternalKey
    simp only [List.nil_append]
    rw [compare_append_eq ucmp uk uk 0 seq 0 t (by rw [hk]; omega) hseq
      (by omega) ht]
    rw [if_pos hrefl]
    rw [if_neg (by omega)]
    by_cases hz : 0 < 256 * seq + t
    · rw [if_pos (by omega)]
      norm_num
    · rw [if_neg (by omega)]
  · intro hnz
    unfold InternalKey.SetMaxPossibleForUserKey InternalKey.new
      AppendInternalKey
    simp only [List.nil_append]
    rw [compare_append_eq ucmp uk uk 0 seq 0 t (by rw [hk]; omega) hseq
      (by omega) ht]
    rw [if_pos hrefl]
    rw [if_neg (by omega)]
    rw [if_pos (by omega)]
    norm_num
  · intro htmax
    unfold InternalKey.SetMinPossibleForUserKey InternalKey.new
      AppendInternalKey kValueTypeForSeek
    simp only [List.nil_append]
    rw [compare_append_eq ucmp uk uk kMaxSequenceNumber seq kTypeMaxValid t
      (le_refl _) hseq (by decide) ht]
    rw [if_pos hrefl]
    have hm : kTypeMaxValid = 25 := rfl
    rw [if_pos (by rw [hk]; rw [hm] at htmax ⊢; omega)]
    norm_num

/-- Witness for C6 amended, at user key [97], sequence 3, put tag. -/
theorem setMinMaxPossibleForUserKey_bounds_witness :
    (0 ≤ InternalKeyComparator.Compare bytewiseCompare
        (InternalKey.SetMaxPossibleForUserKey [97])
        (InternalKey.new [97] 3 kTypeValue)) ∧
    (¬(3 = 0 ∧ kTypeValue = 0) →
      0 < InternalKeyComparator.Compare bytewiseCompare
        (InternalKey.SetMaxPossibleForUserKey [97])
        (InternalKey.new [97] 3 kTypeValue)) ∧
    (kTypeValue < kTypeMaxValid →
      InternalKeyComparator.Compare bytewiseCompare
        (InternalKey.SetMinPossibleForUserKey [97])
        (InternalKey.new [97] 3 kTypeValue) < 0) :=
  setMinMaxPossibleForUserKey_bounds bytewiseCompare [97] 3 kTypeValue
    (by decide) (by decide) (by decide)

/-- In-place write of a data block into a buffer at a byte offset,
modelling memcpy into an owned contiguous buffer. -/
def writeAt (buf : List Nat) (off : Nat) (data : List Nat) : List Nat :=
  buf.take off ++ data ++ buf.drop (off + data.length)

/-- The key builder of dbformat.h: an owned buffer, the bytes of the
currently held key, the user-key/internal-key mode flag, and whether the
held bytes alias external memory (pinned) instead of living in the
buffer. -/
structure IterKey where
  buf : List Nat
  key : List Nat
  is_user_key : Bool
  pinned : Bool

/-- Builder invariant: when the held key is not pinned it is exactly the
leading bytes of the owned buffer. -/
def IterKey.Wf (st : IterKey) : Prop :=
  st.pinned = false → st.key = st.buf.take st.key.length

/-- Keep the first shared bytes of the held key and append the non-shared
data; a pinned key is first copied into the owned buffer, and the buffer
grows exactly to the needed size when too small. -/
def IterKey.TrimAppend (st : IterKey) (shared_len : Nat)
    (non_shared_data : List Nat) : IterKey :=
  let total_size := shared_len + non_shared_data.length
  if st.pinned then
    let b0 := if total_size > st.buf.length then List.replicate total_size 0
      else st.buf
    let b1 := writeAt b0 0 (st.key.take shared_len)
    let b2 := writeAt b1 shared_len non_shared_data
    ⟨b2, b2.take total_size, st.is_user_key, false⟩
  else if total_size > st.buf.length then
    let p := writeAt (List.replicate total_size 0) 0 (st.key.take shared_len)
    let b2 := writeAt p shared_len non_shared_data
    ⟨b2, b2.take total_size, st.is_user_key, false⟩
  else
    let b2 := writeAt st.buf shared_len non_shared_data
    ⟨b2, b2.take total_size, st.is_user_key, false⟩

/-- Rewrites the footer of the held internal key in place and, when a
timestamp is supplied, overwrites the timestamp bytes immediately before
the footer; the buffer is reused, never replaced. -/
def IterKey.UpdateInternalKey (st : IterKey) (seq : Nat) (t : Nat)
    (ts : Option (List Nat)) : IterKey :=
  let b1 := match ts with
    | some tsv =>
      writeAt st.buf (st.key.length - kNumInternalBytes - tsv.length) tsv
    | none => st.buf
  let newval := (seq <<< 8) ||| t
  let b2 := writeAt b1 (st.key.length - kNumInternalBytes)
    (encodeFixed64 newval)
  ⟨b2, b2.take st.key.length, st.is_user_key, st.pinned⟩

/-- Update the sequence number in a serialized internal key held in an
owned string, not reallocating the storage. -/
def UpdateInternalKey (ikey : List Nat) (seq : Nat) (t : Nat) : List Nat :=
  let newval := (seq <<< 8) ||| t
  writeAt ikey (ikey.length - kNumInternalBytes) (encodeFixed64 newval)

theorem take_append_exact (x y : List Nat) (n : Nat) (hx : x.length = n) :
    (x ++ y).take n = x := by
  subst hx
  exact List.take_left x y

/-- The two copying branches of TrimAppend produce the trimmed key
followed by the suffix. -/
theorem copy_branch_key (b0 S ns : List Nat) :
    (writeAt (writeAt b0 0 S) S.length ns).take (S.length + ns.length) =
      S ++ ns := by
  unfold writeAt
  simp only [List.take_zero, List.nil_append, Nat.zero_add]
  rw [take_append_exact S (b0.drop S.length) S.length rfl]
  exact take_append_exact (S ++ ns) _ _ (by simp)

/-- The in-place branch of TrimAppend produces the trimmed key followed
by the suffix. -/
theorem inplace_branch_key (b S ns : List Nat) (hb : b.take S.length = S) :
    (writeAt b S.length ns).take (S.length + ns.length) = S ++ ns := by
  unfold writeAt
  rw [hb]
  exact take_append_exact (S ++ ns) _ _ (by simp)

/-- Per-step byte contract of TrimAppend on a well-formed builder. -/
theorem trimAppend_key (st : IterKey) (hwf : st.Wf) (shared_len : Nat)
    (ns : List Nat) (hs : shared_len ≤ st.key.length) :
    (st.TrimAppend shared_len ns).key = st.key.take shared_len ++ ns := by
  have hS : (st.key.take shared_len).length = shared_len := by
    rw [List.length_take]
    omega
  unfold IterKey.TrimAppend
  set S := st.key.take shared_len with hSdef
  by_cases hp : st.pinned
  · simp only [hp, if_true]
    rw [← hS]
    exact copy_branch_key _ S ns
  · have hkey := hwf (by simpa using hp)
    have hbt : st.buf.take S.length = S := by
      rw [hS, hSdef, hkey, List.take_take]
      congr 1
      omega
    simp only [hp, Bool.false_eq_true, if_false]
    by_cases hg : shared_len + ns.length > st.buf.length
    · rw [if_pos hg]
      simp only []
      rw [← hS]
      exact copy_branch_key _ S ns
    · rw [if_neg hg]
      simp only []
      rw [← hS]
      exact inplace_branch_key st.buf S ns hbt

/-- TrimAppend preserves the builder invariant. -/
theorem trimAppend_wf (st : IterKey) (shared_len : Nat) (ns : List Nat) :
    (st.TrimAppend shared_len ns).Wf := by
  unfold IterKey.TrimAppend IterKey.Wf
  by_cases hp : st.pinned
  · simp only [hp, if_true]
    intro _
    rw [List.length_take]
    exact List.take_eq_take.mpr (by omega)
  · simp only [hp, Bool.false_eq_true, if_false]
    by_cases hg : shared_len + ns.length > st.buf.length
    · rw [if_pos hg]
      intro _
      simp only []
      rw [List.length_take]
      exact List.take_eq_take.mpr (by omega)
    · rw [if_neg hg]
      intro _
      simp only []
      rw [List.length_take]
      exact List.take_eq_take.mpr (by omega)

/-- Length of the longest common prefix of two byte strings, as used to
produce the shared-prefix delta stream. -/
def commonPrefixLen : List Nat → List Nat → Nat
  | a :: as, b :: bs => if a = b then commonPrefixLen as bs + 1 else 0
  | _, _ => 0

/-- The standard shared/non-shared delta encoding of a sorted key list,
relative to the previously emitted key. -/
def deltaEncode (prev : List Nat) : List (List Nat) → List (Nat × List Nat)
  | [] => []
  | k :: ks =>
    (commonPrefixLen prev k, k.drop (commonPrefixLen prev k)) ::
      deltaEncode k ks

/-- Replaying a delta stream through the key builder. -/
def replayDeltas (st : IterKey) : List (Nat × List Nat) → IterKey
  | [] => st
  | d :: ds => replayDeltas (st.TrimAppend d.1 d.2) ds

theorem commonPrefixLen_le_left :
    ∀ a b : List Nat, commonPrefixLen a b ≤ a.length := by
  intro a
  induction a with
  | nil => intro b; cases b <;> simp [commonPrefixLen]
  | cons x as ih =>
    intro b
    cases b with
    | nil => simp [commonPrefixLen]
    | cons y bs =>
      unfold commonPrefixLen
      by_cases h : x = y
      · rw [if_pos h]
        have := ih bs
        simp only [List.length_cons]
        omega
      · rw [if_neg h]
        omega

theorem commonPrefixLen_take :
    ∀ a b : List Nat, a.take (commonPrefixLen a b) =
      b.take (commonPrefixLen a b) := by
  intro a
  induction a with
  | nil => intro b; cases b <;> simp [commonPrefixLen]
  | cons x as ih =>
    intro b
    cases b with
    | nil => simp [commonPrefixLen]
    | cons y bs =>
      unfold commonPrefixLen
      by_cases h : x = y
      · rw [if_pos h]
        simp only [List.take_succ_cons, h]
        rw [ih bs]
      · rw [if_neg h]
        simp

/-- One delta step rebuilds the target key exactly. -/
theorem trimAppend_delta_step (st : IterKey) (hwf : st.Wf) (k : List Nat) :
    (st.TrimAppend (commonPrefixLen st.key k)
        (k.drop (commonPrefixLen st.key k))).key = k := by
  rw [trimAppend_key st hwf _ _ (commonPrefixLen_le_left _ _)]
  rw [commonPrefixLen_take]
  exact List.take_append_drop _ k

/-- C7: TrimAppend leaves the builder holding exactly the retained
prefix of the previously held key followed by the supplied suffix,
whether or not the previous bytes were pinned; consequently replaying
the standard shared-prefix delta stream of a key list reproduces, after
each step, exactly the directly encoded key. -/
theorem iterKey_trimAppend_delta (st : IterKey) (hwf : st.Wf)
    (shared_len : Nat) (ns : List Nat) (hs : shared_len ≤ st.key.length) :
    (st.TrimAppend shared_len ns).key = st.key.take shared_len ++ ns ∧
    (∀ ks : List (List Nat), ∀ i : Nat, ∀ hi : i < ks.length,
      (replayDeltas st ((deltaEncode st.key ks).take (i + 1))).key =
        ks.get ⟨i, hi⟩) := by
  constructor
  · exact trimAppend_key st hwf shared_len ns hs
  · intro ks
    clear hs
    induction ks generalizing st with
    | nil => intro i hi; simp at hi
    | cons k ks ih =>
      intro i hi
      cases i with
      | zero =>
        simp only [deltaEncode, List.take_succ_cons, List.take_zero,
          replayDeltas]
        exact trimAppend_delta_step st hwf k
      | succ j =>
        simp only [deltaEncode, List.take_succ_cons, replayDeltas]
        have hkey := trimAppend_delta_step st hwf k
        have hwf2 := trimAppend_wf st (commonPrefixLen st.key k)
          (k.drop (commonPrefixLen st.key k))
        have hj : j < ks.length := by
          simp only [List.length_cons] at hi
          omega
        have := ih _ hwf2 j hj
        rw [hkey] at this
        simpa using this

/-- Witness for C7: a pinned builder trims and appends correctly, and an
owned builder replays a two-key delta stream to the second key. -/
theorem iterKey_trimAppend_delta_witness :
    ((IterKey.mk [0, 0, 0] [97, 98, 99] true true).TrimAppend 2 [100]).key =
      ([97, 98, 99] : List Nat).take 2 ++ [100] ∧
    (replayDeltas (IterKey.mk [97, 98] [97, 98] false false)
        ((deltaEncode [97, 98] [[97, 98, 99], [97, 100]]).take (1 + 1))).key =
      [97, 100] :=
  ⟨(iterKey_trimAppend_delta (IterKey.mk [0, 0, 0] [97, 98, 99] true true)
      (by intro h; simp at h) 2 [100] (by decide)).1,
   (iterKey_trimAppend_delta (IterKey.mk [97, 98] [97, 98] false false)
      (by intro _; decide) 2 [100] (by decide)).2
     [[97, 98, 99], [97, 100]] 1 (by decide)⟩

/-- C8: updating the footer of an owned internal key in place preserves
the key length and every byte of the user-key prefix before the
timestamp/footer region; only the last eight bytes become the packed new
footer and, when a timestamp is supplied, the bytes immediately before
the footer become that timestamp.  The free-function form on a plain
string behaves identically.  The in-place write model never replaces the
buffer, so slices into the unchanged prefix stay valid. -/
theorem iterKey_updateInternalKey_frame (st : IterKey) (hwf : st.Wf)
    (hp : st.pinned = false) (seq t ts_sz : Nat)
    (hn : kNumInternalBytes + ts_sz ≤ st.key.length) :
    (UpdateInternalKey st.key seq t =
      st.key.take (st.key.length - kNumInternalBytes) ++
        encodeFixed64 ((seq <<< 8) ||| t)) ∧
    ((st.UpdateInternalKey seq t none).key.length = st.key.length ∧
     (st.UpdateInternalKey seq t none).key =
       st.key.take (st.key.length - kNumInternalBytes) ++
         encodeFixed64 ((seq <<< 8) ||| t)) ∧
    (∀ tsv : List Nat, tsv.length = ts_sz →
      (st.UpdateInternalKey seq t (some tsv)).key.length = st.key.length ∧
      (st.UpdateInternalKey seq t (some tsv)).key.take
          (st.key.length - kNumInternalBytes - ts_sz) =
        st.key.take (st.key.length - kNumInternalBytes - ts_sz) ∧
      (st.UpdateInternalKey seq t (some tsv)).key =
        st.key.take (st.key.length - kNumInternalBytes - ts_sz) ++ tsv ++
          encodeFixed64 ((seq <<< 8) ||| t)) := by
  have hkey := hwf hp
  have hbuf : st.key.length ≤ st.buf.length := by
    have := congrArg List.length hkey
    rw [List.length_take] at this
    omega
  have h8 : kNumInternalBytes = 8 := rfl
  have htake : ∀ m : Nat, m ≤ st.key.length →
      st.buf.take m = st.key.take m := by
    intro m hm
    rw [hkey, List.take_take]
    congr 1
    omega
  refine ⟨?_, ⟨?_, ?_⟩, ?_⟩
  · unfold UpdateInternalKey writeAt
    simp only [encodeFixed64_length]
    rw [show st.key.length - kNumInternalBytes + 8 = st.key.length by omega]
    rw [List.drop_length, List.append_nil]
  · unfold IterKey.UpdateInternalKey writeAt
    simp only [List.length_take, List.length_append, List.length_drop,
      encodeFixed64_length]
    omega
  · unfold IterKey.UpdateInternalKey writeAt
    simp only []
    rw [take_append_exact
        (st.buf.take (st.key.length - kNumInternalBytes) ++
          encodeFixed64 ((seq <<< 8) ||| t)) _ st.key.length
        (by rw [List.length_append, List.length_take, encodeFixed64_length]
            omega)]
    rw [htake _ (by omega)]
  · intro tsv htsv
    have hb1 : writeAt st.buf
        (st.key.length - kNumInternalBytes - tsv.length) tsv =
        (st.key.take (st.key.length - kNumInternalBytes - ts_sz) ++ tsv) ++
          st.buf.drop (st.key.length - kNumInternalBytes) := by
      unfold writeAt
      rw [htake _ (by omega), htsv]
      rw [show st.key.length - kNumInternalBytes - ts_sz + ts_sz =
          st.key.length - kNumInternalBytes by omega]
    have hfront : (st.key.take (st.key.length - kNumInternalBytes - ts_sz) ++
        tsv).length = st.key.length - kNumInternalBytes := by
      rw [List.length_append, List.length_take, htsv]
      omega
    have hfe : ((st.key.take (st.key.length - kNumInternalBytes - ts_sz) ++
        tsv) ++ encodeFixed64 ((seq <<< 8) ||| t)).length =
        st.key.length := by
      rw [List.length_append, hfront, encodeFixed64_length]
      omega
    refine ⟨?_, ?_, ?_⟩
    · unfold IterKey.UpdateInternalKey
      simp only []
      rw [hb1]
      unfold writeAt
      rw [take_append_exact _ _ _ hfront]
      simp only [List.length_take, List.length_append, List.length_drop,
        encodeFixed64_length, htsv]
      omega
    · unfold IterKey.UpdateInternalKey
      simp only []
      rw [hb1]
      unfold writeAt
      rw [take_append_exact _ _ _ hfront]
      rw [take_append_exact _ _ st.key.length hfe]
      rw [List.append_assoc]
      rw [take_append_exact _ _ _ (by rw [List.length_take]; omega)]
    · unfold IterKey.UpdateInternalKey
      simp only []
      rw [hb1]
      unfold writeAt
      rw [take_append_exact _ _ _ hfront]
      rw [take_append_exact _ _ st.key.length hfe]

/-- Witness for C8 on a concrete owned builder holding a twelve-byte
internal key with a four-byte timestamp region. -/
theorem iterKey_updateInternalKey_frame_witness :
    (UpdateInternalKey
        (IterKey.mk [10, 11, 12, 13, 14, 15, 16, 17, 18, 19, 20, 21]
          [10, 11, 12, 13, 14, 15, 16, 17, 18, 19, 20, 21] false false).key
        7 1 =
      ([10, 11, 12, 13, 14, 15, 16, 17, 18, 19, 20, 21] : List Nat).take
          (12 - kNumInternalBytes) ++
        encodeFixed64 ((7 <<< 8) ||| 1)) ∧
    ((IterKey.mk [10, 11, 12, 13, 14, 15, 16, 17, 18, 19, 20, 21]
        [10, 11, 12, 13, 14, 15, 16, 17, 18, 19, 20, 21] false
        false).UpdateInternalKey 7 1 (some [255, 255])).key =
      ([10, 11, 12, 13, 14, 15, 16, 17, 18, 19, 20, 21] : List Nat).take
          (12 - kNumInternalBytes - 2) ++ [255, 255] ++
        encodeFixed64 ((7 <<< 8) ||| 1) := by
  have h := iterKey_updateInternalKey_frame
    (IterKey.mk [10, 11, 12, 13, 14, 15, 16, 17, 18, 19, 20, 21]
      [10, 11, 12, 13, 14, 15, 16, 17, 18, 19, 20, 21] false false)
    (by intro _; decide) rfl 7 1 2 (by decide)
  exact ⟨h.1, (h.2.2 [255, 255] rfl).2.2⟩

/-- Helper of TrimAppendWithTimestamp: append the slice to the part
list, splitting it at the computed offset and inserting the minimum
timestamp there when this slice is the one containing the insertion
point and no timestamp has been added yet. -/
def MaybeAddKeyPartsWithTimestamp (slice_data : List Nat)
    (add_timestamp : Bool) (left_sz : Nat) (min_timestamp : List Nat)
    (key_parts : List (List Nat)) (ts_added : Bool) :
    List (List Nat) × Bool :=
  if add_timestamp && !ts_added then
    (key_parts ++
      [slice_data.take left_sz, min_timestamp, slice_data.drop left_sz],
     true)
  else (key_parts ++ [slice_data], ts_added)

/-- Wholesale replacement of the held key, either copying into the owned
buffer or aliasing the external bytes (pinned). -/
def IterKey.SetKeyImpl (st : IterKey) (key : List Nat) (copy : Bool) :
    IterKey :=
  if copy then
    let b0 := if key.length > st.buf.length then List.replicate key.length 0
      else st.buf
    let b1 := writeAt b0 0 key
    ⟨b1, b1.take key.length, st.is_user_key, false⟩
  else ⟨st.buf, key, st.is_user_key, true⟩

/-- SetKey with the default copying behaviour. -/
def IterKey.SetKey (st : IterKey) (key : List Nat) : IterKey :=
  st.SetKeyImpl key true

/-- The TrimAppend variant that splices a minimum timestamp of the given
width into the reconstructed key immediately before the footer (at the
very end in user-key mode), locating the insertion offset across the
retained user-key bytes, the retained footer bytes and the new suffix. -/
def IterKey.TrimAppendWithTimestamp (st : IterKey) (shared_len : Nat)
    (non_shared_data : List Nat) (ts_sz : Nat) : IterKey :=
  let kTsMin := List.replicate ts_sz 0
  let non_shared_len := non_shared_data.length
  let key_parts_with_ts : List (List Nat) :=
    if st.is_user_key then
      [st.key.take shared_len, non_shared_data, kTsMin]
    else
      let user_key_len := st.key.length - kNumInternalBytes
      let sharable_user_key_len := user_key_len - ts_sz
      let shared_user_key_len := min shared_len sharable_user_key_len
      let shared_internal_bytes_len := shared_len - shared_user_key_len
      let r1 := MaybeAddKeyPartsWithTimestamp
        (st.key.take shared_user_key_len)
        (decide (shared_internal_bytes_len + non_shared_len <
          kNumInternalBytes))
        (shared_len + non_shared_len - kNumInternalBytes) kTsMin [] false
      let r2 := MaybeAddKeyPartsWithTimestamp
        ((st.key.drop user_key_len).take shared_internal_bytes_len)
        (decide (non_shared_len < kNumInternalBytes))
        (shared_internal_bytes_len + non_shared_len - kNumInternalBytes)
        kTsMin r1.1 r1.2
      let r3 := MaybeAddKeyPartsWithTimestamp non_shared_data
        (decide (non_shared_len ≥ kNumInternalBytes))
        (non_shared_len - kNumInternalBytes) kTsMin r2.1 r2.2
      r3.1
  st.SetKey key_parts_with_ts.flatten

/-- SetKey holds exactly the supplied bytes. -/
theorem setKey_key (st : IterKey) (k : List Nat) : (st.SetKey k).key = k := by
  unfold IterKey.SetKey IterKey.SetKeyImpl
  simp only [if_true]
  unfold writeAt
  simp only [List.take_zero, List.nil_append, Nat.zero_add]
  exact take_append_exact k _ _ rfl

/-- C5: in internal-key mode, TrimAppendWithTimestamp produces exactly
the delta-decoded raw key (retained user-key bytes, then retained footer
bytes, then the new suffix) with one minimum timestamp of the requested
width spliced in immediately before the eight-byte footer, wherever the
insertion offset falls: strictly inside the retained prefix, on the
retained/suffix boundary, or strictly inside the new suffix. -/
theorem iterKey_trimAppendWithTimestamp_splice (st : IterKey)
    (u t f ns : List Nat) (shared_len ts_sz : Nat)
    (hmode : st.is_user_key = false)
    (hkey : st.key = u ++ t ++ f)
    (ht : t.length = ts_sz) (hf : f.length = 8)
    (hshared : shared_len ≤ u.length + 8)
    (htotal : 8 ≤ shared_len + ns.length) :
    (st.TrimAppendWithTimestamp shared_len ns ts_sz).key =
      (u.take (min shared_len u.length) ++
          f.take (shared_len - min shared_len u.length) ++ ns).take
            (shared_len + ns.length - 8) ++
        List.replicate ts_sz 0 ++
        (u.take (min shared_len u.length) ++
          f.take (shared_len - min shared_len u.length) ++ ns).drop
            (shared_len + ns.length - 8) := by
  have hSU : min shared_len u.length ≤ u.length := Nat.min_le_right _ _
  have hr1len : (u.take (min shared_len u.length)).length =
      min shared_len u.length := by
    rw [List.length_take]
    omega
  have hSI : shared_len - min shared_len u.length ≤ 8 := by omega
  have hr2len : (f.take (shared_len - min shared_len u.length)).length =
      shared_len - min shared_len u.length := by
    rw [List.length_take]
    omega
  unfold IterKey.TrimAppendWithTimestamp
  rw [hmode]
  simp only [Bool.false_eq_true, if_false]
  rw [setKey_key]
  simp only [kNumInternalBytes]
  rw [hkey]
  simp only [show (u ++ t ++ f).length - 8 - ts_sz = u.length from by
    simp only [List.length_append, ht, hf]; omega]
  simp only [show (u ++ t ++ f).length - 8 = (u ++ t).length from by
    simp only [List.length_append, ht, hf]; omega]
  rw [List.drop_left]
  rw [List.take_append_of_le_length
    (show min shared_len u.length ≤ (u ++ t).length from by
      rw [List.length_append]; omega)]
  rw [List.take_append_of_le_length hSU]
  by_cases hA : shared_len - min shared_len u.length + ns.length < 8
  · have hp : shared_len + ns.length - 8 ≤ min shared_len u.length := by
      omega
    simp only [MaybeAddKeyPartsWithTimestamp, hA, decide_True, decide_False,
      eq_self_iff_true, Bool.false_eq_true, Bool.not_false, Bool.not_true,
      Bool.and_true, Bool.and_false, Bool.true_and, Bool.false_and, if_true,
      if_false, List.flatten_cons, List.flatten_nil, List.nil_append,
      List.append_nil]
    rw [List.take_append_of_le_length
      (show shared_len + ns.length - 8 ≤
        (u.take (min shared_len u.length) ++
          f.take (shared_len - min shared_len u.length)).length from by
        rw [List.length_append, hr1len, hr2len]; omega)]
    rw [List.take_append_of_le_length
      (show shared_len + ns.length - 8 ≤
        (u.take (min shared_len u.length)).length from by
        rw [hr1len]; omega)]
    rw [List.drop_append_of_le_length
      (show shared_len + ns.length - 8 ≤
        (u.take (min shared_len u.length) ++
          f.take (shared_len - min shared_len u.length)).length from by
        rw [List.length_append, hr1len, hr2len]; omega)]
    rw [List.drop_append_of_le_length
      (show shared_len + ns.length - 8 ≤
        (u.take (min shared_len u.length)).length from by
        rw [hr1len]; omega)]
    rw [List.take_take]
    rw [show min (shared_len + ns.length - 8) (min shared_len u.length) =
      shared_len + ns.length - 8 from by omega]
    simp [List.append_assoc]
  · by_cases hB : ns.length < 8
    · have hl2 : shared_len - min shared_len u.length + ns.length - 8 ≤
          shared_len - min shared_len u.length := by omega
      simp only [MaybeAddKeyPartsWithTimestamp, hA, hB, decide_True,
        decide_False, eq_self_iff_true, Bool.false_eq_true, Bool.not_false,
        Bool.not_true, Bool.and_true, Bool.and_false, Bool.true_and,
        Bool.false_and, if_true, if_false, List.flatten_cons,
        List.flatten_nil, List.nil_append, List.append_nil]
      rw [List.append_assoc (u.take (min shared_len u.length))]
      rw [show shared_len + ns.length - 8 =
        (u.take (min shared_len u.length)).length +
          (shared_len - min shared_len u.length + ns.length - 8) from by
        rw [hr1len]; omega]
      rw [List.take_append, List.drop_append]
      rw [List.take_append_of_le_length (by rw [hr2len]; exact hl2)]
      rw [List.drop_append_of_le_length (by rw [hr2len]; exact hl2)]
      rw [List.take_take]
      rw [show min (shared_len - min shared_len u.length + ns.length - 8)
          (shared_len - min shared_len u.length) =
        shared_len - min shared_len u.length + ns.length - 8 from by omega]
      simp [List.append_assoc]
    · have hC : 8 ≤ ns.length := by omega
      simp only [MaybeAddKeyPartsWithTimestamp, hA, hB, hC, ge_iff_le,
        decide_True, decide_False, eq_self_iff_true, Bool.false_eq_true,
        Bool.not_false, Bool.not_true, Bool.and_true, Bool.and_false,
        Bool.true_and, Bool.false_and, if_true, if_false, List.flatten_cons,
        List.flatten_nil, List.nil_append, List.append_nil]
      rw [List.append_assoc (u.take (min shared_len u.length))]
      rw [show shared_len + ns.length - 8 =
        (u.take (min shared_len u.length)).length +
          ((f.take (shared_len - min shared_len u.length)).length +
            (ns.length - 8)) from by rw [hr1len, hr2len]; omega]
      rw [List.take_append, List.drop_append]
      rw [List.take_append, List.drop_append]
      simp [List.append_assoc]

/-- Witness for C5 on a twenty-byte internal key with a four-byte
timestamp to splice: the insertion offset falls strictly inside the
retained prefix, exactly on the retained/suffix boundary, and strictly
inside the new suffix, in the three conjuncts respectively. -/
theorem iterKey_trimAppendWithTimestamp_splice_witness :
    ((IterKey.mk
        [1, 2, 3, 4, 5, 6, 7, 8, 0, 0, 0, 0,
          101, 102, 103, 104, 105, 106, 107, 108]
        [1, 2, 3, 4, 5, 6, 7, 8, 0, 0, 0, 0,
          101, 102, 103, 104, 105, 106, 107, 108]
        false false).TrimAppendWithTimestamp 8 [9, 10, 11, 12] 4).key =
      (([1, 2, 3, 4, 5, 6, 7, 8] : List Nat).take
            (min 8 ([1, 2, 3, 4, 5, 6, 7, 8] : List Nat).length) ++
          ([101, 102, 103, 104, 105, 106, 107, 108] : List Nat).take
            (8 - min 8 ([1, 2, 3, 4, 5, 6, 7, 8] : List Nat).length) ++
          [9, 10, 11, 12]).take (8 + ([9, 10, 11, 12] : List Nat).length - 8) ++
        List.replicate 4 0 ++
        (([1, 2, 3, 4, 5, 6, 7, 8] : List Nat).take
            (min 8 ([1, 2, 3, 4, 5, 6, 7, 8] : List Nat).length) ++
          ([101, 102, 103, 104, 105, 106, 107, 108] : List Nat).take
            (8 - min 8 ([1, 2, 3, 4, 5, 6, 7, 8] : List Nat).length) ++
          [9, 10, 11, 12]).drop
            (8 + ([9, 10, 11, 12] : List Nat).length - 8) ∧
    ((IterKey.mk
        [1, 2, 3, 4, 5, 6, 7, 8, 0, 0, 0, 0,
          101, 102, 103, 104, 105, 106, 107, 108]
        [1, 2, 3, 4, 5, 6, 7, 8, 0, 0, 0, 0,
          101, 102, 103, 104, 105, 106, 107, 108]
        false false).TrimAppendWithTimestamp 8
          [9, 10, 11, 12, 13, 14, 15, 16] 4).key =
      (([1, 2, 3, 4, 5, 6, 7, 8] : List Nat).take
            (min 8 ([1, 2, 3, 4, 5, 6, 7, 8] : List Nat).length) ++
          ([101, 102, 103, 104, 105, 106, 107, 108] : List Nat).take
            (8 - min 8 ([1, 2, 3, 4, 5, 6, 7, 8] : List Nat).length) ++
          [9, 10, 11, 12, 13, 14, 15, 16]).take
            (8 + ([9, 10, 11, 12, 13, 14, 15, 16] : List Nat).length - 8) ++
        List.replicate 4 0 ++
        (([1, 2, 3, 4, 5, 6, 7, 8] : List Nat).take
            (min 8 ([1, 2, 3, 4, 5, 6, 7, 8] : List Nat).length) ++
          ([101, 102, 103, 104, 105, 106, 107, 108] : List Nat).take
            (8 - min 8 ([1, 2, 3, 4, 5, 6, 7, 8] : List Nat).length) ++
          [9, 10, 11, 12, 13, 14, 15, 16]).drop
            (8 + ([9, 10, 11, 12, 13, 14, 15, 16] : List Nat).length - 8) ∧
    ((IterKey.mk
        [1, 2, 3, 4, 5, 6, 7, 8, 0, 0, 0, 0,
          101, 102, 103, 104, 105, 106, 107, 108]
        [1, 2, 3, 4, 5, 6, 7, 8, 0, 0, 0, 0,
          101, 102, 103, 104, 105, 106, 107, 108]
        false false).TrimAppendWithTimestamp 4
          [20, 21, 22, 23, 24, 25, 26, 27, 28, 29, 30, 31] 4).key =
      (([1, 2, 3, 4, 5, 6, 7, 8] : List Nat).take
            (min 4 ([1, 2, 3, 4, 5, 6, 7, 8] : List Nat).length) ++
          ([101, 102, 103, 104, 105, 106, 107, 108] : List Nat).take
            (4 - min 4 ([1, 2, 3, 4, 5, 6, 7, 8] : List Nat).length) ++
          [20, 21, 22, 23, 24, 25, 26, 27, 28, 29, 30, 31]).take
            (4 + ([20, 21, 22, 23, 24, 25, 26, 27, 28, 29, 30, 31] :
              List Nat).length - 8) ++
        List.replicate 4 0 ++
        (([1, 2, 3, 4, 5, 6, 7, 8] : List Nat).take
            (min 4 ([1, 2, 3, 4, 5, 6, 7, 8] : List Nat).length) ++
          ([101, 102, 103, 104, 105, 106, 107, 108] : List Nat).take
            (4 - min 4 ([1, 2, 3, 4, 5, 6, 7, 8] : List Nat).length) ++
          [20, 21, 22, 23, 24, 25, 26, 27, 28, 29, 30, 31]).drop
            (4 + ([20, 21, 22, 23, 24, 25, 26, 27, 28, 29, 30, 31] :
              List Nat).length - 8) :=
  ⟨iterKey_trimAppendWithTimestamp_splice _
      [1, 2, 3, 4, 5, 6, 7, 8] [0, 0, 0, 0]
      [101, 102, 103, 104, 105, 106, 107, 108] [9, 10, 11, 12] 8 4
      rfl rfl rfl rfl (by decide) (by decide),
   iterKey_trimAppendWithTimestamp_splice _
      [1, 2, 3, 4, 5, 6, 7, 8] [0, 0, 0, 0]
      [101, 102, 103, 104, 105, 106, 107, 108]
      [9, 10, 11, 12, 13, 14, 15, 16] 8 4
      rfl rfl rfl rfl (by decide) (by decide),
   iterKey_trimAppendWithTimestamp_splice _
      [1, 2, 3, 4, 5, 6, 7, 8] [0, 0, 0, 0]
      [101, 102, 103, 104, 105, 106, 107, 108]
      [20, 21, 22, 23, 24, 25, 26, 27, 28, 29, 30, 31] 4 4
      rfl rfl rfl rfl (by decide) (by decide)⟩

end RocksDB
